import Mathlib

/-!
Verification of the quaternion library `quternion.py`.

The class `Quaternion` stores four real coefficients `a, b, c, d` and
provides Hamilton-product multiplication, norm, inverse, division,
normalization, conjugation, vector extraction, vector rotation and
axis-angle conversions.  Python floats are modelled as real numbers;
operations that can raise a Python exception (`math.acos` / `math.sqrt`
domain errors, float division by zero) are additionally modelled as
`Option`-valued functions that return `none` exactly when the Python
code raises.
-/

namespace Quternion

/-- The data model of `class Quaternion`: four coefficients
`Q = a + b·i + c·j + d·k`. -/
@[ext]
structure Quaternion where
  a : ℝ
  b : ℝ
  c : ℝ
  d : ℝ

namespace Quaternion

/-- `__add__`: componentwise sum. -/
def add (q r : Quaternion) : Quaternion :=
  ⟨q.a + r.a, q.b + r.b, q.c + r.c, q.d + r.d⟩

/-- `__sub__`: componentwise difference. -/
def sub (q r : Quaternion) : Quaternion :=
  ⟨q.a - r.a, q.b - r.b, q.c - r.c, q.d - r.d⟩

/-- `__mul__`: the Hamilton product, transcribed line by line from the
source. -/
def mul (q r : Quaternion) : Quaternion :=
  ⟨q.a * r.a - q.b * r.b - q.c * r.c - q.d * r.d,
   q.a * r.b + q.b * r.a + q.c * r.d - q.d * r.c,
   q.a * r.c - q.b * r.d + q.c * r.a + q.d * r.b,
   q.a * r.d + q.b * r.c - q.c * r.b + q.d * r.a⟩

/-- `norm`: `sqrt(a**2 + b**2 + c**2 + d**2)`. -/
noncomputable def norm (q : Quaternion) : ℝ :=
  Real.sqrt (q.a ^ 2 + q.b ^ 2 + q.c ^ 2 + q.d ^ 2)

/-- `inverse`: each component divided by `norm() ** 2`, the vector part
negated. -/
noncomputable def inverse (q : Quaternion) : Quaternion :=
  ⟨q.a / q.norm ^ 2, -q.b / q.norm ^ 2, -q.c / q.norm ^ 2, -q.d / q.norm ^ 2⟩

/-- `__truediv__`: `self * other.inverse()`. -/
noncomputable def div (q r : Quaternion) : Quaternion :=
  mul q r.inverse

/-- `normalize`: each component divided by `norm()`. -/
noncomputable def normalize (q : Quaternion) : Quaternion :=
  ⟨q.a / q.norm, q.b / q.norm, q.c / q.norm, q.d / q.norm⟩

/-- `conjugate`: `(a, -b, -c, -d)`. -/
def conjugate (q : Quaternion) : Quaternion :=
  ⟨q.a, -q.b, -q.c, -q.d⟩

/-- `vector`: the tuple `(b, c, d)`. -/
def vector (q : Quaternion) : ℝ × ℝ × ℝ :=
  (q.b, q.c, q.d)

/-- `rotate_vector`: lift `v` to `Quaternion(0, *vector)` and return the
vector part of `self * q_vector * self.inverse()`. -/
noncomputable def rotate_vector (q : Quaternion) (v : ℝ × ℝ × ℝ) : ℝ × ℝ × ℝ :=
  (mul (mul q ⟨0, v.1, v.2.1, v.2.2⟩) q.inverse).vector

/-- `from_axis_angle`: `(cos(angle/2), axis[0]*sin(angle/2),
axis[1]*sin(angle/2), axis[2]*sin(angle/2))`. -/
noncomputable def from_axis_angle (axis : ℝ × ℝ × ℝ) (angle : ℝ) : Quaternion :=
  ⟨Real.cos (angle / 2),
   axis.1 * Real.sin (angle / 2),
   axis.2.1 * Real.sin (angle / 2),
   axis.2.2 * Real.sin (angle / 2)⟩

/-- Python `math.acos`: defined on `[-1, 1]`, raises `ValueError: math
domain error` outside it.  `none` models the raise. -/
noncomputable def acosOpt (x : ℝ) : Option ℝ :=
  if -1 ≤ x ∧ x ≤ 1 then some (Real.arccos x) else none

/-- Python `math.sqrt`: defined on `[0, ∞)`, raises a domain error on
negative input.  `none` models the raise. -/
noncomputable def sqrtOpt (x : ℝ) : Option ℝ :=
  if 0 ≤ x then some (Real.sqrt x) else none

/-- `to_axis_angle` with Python fault semantics: `angle = 2*acos(a)` is
computed first, then `sin_half_angle = sqrt(1 - a*a)`; if either raises
the whole call raises (`none`); otherwise the two-branch body runs. -/
noncomputable def to_axis_angleOpt (q : Quaternion) :
    Option ((ℝ × ℝ × ℝ) × ℝ) :=
  match acosOpt q.a with
  | none => none
  | some ac =>
    match sqrtOpt (1 - q.a * q.a) with
    | none => none
    | some s =>
      if s < 1e-10 then some ((1, 0, 0), 0)
      else some ((q.b / s, q.c / s, q.d / s), 2 * ac)

/-- `inverse` with Python fault semantics: dividing a float by `0.0`
raises `ZeroDivisionError`, and the source divides by `norm() ** 2`
with no guard; `none` models the raise. -/
noncomputable def inverseOpt (q : Quaternion) : Option Quaternion :=
  if q.norm ^ 2 = 0 then none
  else some ⟨q.a / q.norm ^ 2, -q.b / q.norm ^ 2,
             -q.c / q.norm ^ 2, -q.d / q.norm ^ 2⟩

/-- `__truediv__` with Python fault semantics: `self * other.inverse()`
raises exactly when `other.inverse()` raises. -/
noncomputable def divOpt (q r : Quaternion) : Option Quaternion :=
  Option.map (mul q) (inverseOpt r)

/-- The squared norm evaluates the square root away: the sum of the
squares of the four coefficients. -/
theorem norm_sq (q : Quaternion) :
    q.norm ^ 2 = q.a ^ 2 + q.b ^ 2 + q.c ^ 2 + q.d ^ 2 :=
  Real.sq_sqrt (by positivity)

/-- The norm is zero exactly when the coefficient square sum is zero. -/
theorem norm_eq_zero_iff (q : Quaternion) :
    q.norm = 0 ↔ q.a ^ 2 + q.b ^ 2 + q.c ^ 2 + q.d ^ 2 = 0 :=
  Real.sqrt_eq_zero (by positivity)

/-- The inverse written with the square root already evaluated. -/
theorem inverse_eq_sum (q : Quaternion) :
    q.inverse =
      ⟨q.a / (q.a ^ 2 + q.b ^ 2 + q.c ^ 2 + q.d ^ 2),
       -q.b / (q.a ^ 2 + q.b ^ 2 + q.c ^ 2 + q.d ^ 2),
       -q.c / (q.a ^ 2 + q.b ^ 2 + q.c ^ 2 + q.d ^ 2),
       -q.d / (q.a ^ 2 + q.b ^ 2 + q.c ^ 2 + q.d ^ 2)⟩ := by
  unfold inverse
  rw [norm_sq]

/-- C1: `__mul__` implements exactly the Hamilton sign pattern; on the
pair `(1,2,3,4)`, `(5,6,7,8)` it gives `(-60,12,30,24)` one way and
`(-60,20,14,32)` the other, so it is not commutative. -/
theorem mul_hamilton_product :
    (∀ q r : Quaternion,
      mul q r =
        ⟨q.a * r.a - q.b * r.b - q.c * r.c - q.d * r.d,
         q.a * r.b + q.b * r.a + q.c * r.d - q.d * r.c,
         q.a * r.c - q.b * r.d + q.c * r.a + q.d * r.b,
         q.a * r.d + q.b * r.c - q.c * r.b + q.d * r.a⟩) ∧
    mul ⟨1, 2, 3, 4⟩ ⟨5, 6, 7, 8⟩ = ⟨-60, 12, 30, 24⟩ ∧
    mul ⟨5, 6, 7, 8⟩ ⟨1, 2, 3, 4⟩ = ⟨-60, 20, 14, 32⟩ ∧
    mul ⟨1, 2, 3, 4⟩ ⟨5, 6, 7, 8⟩ ≠ mul ⟨5, 6, 7, 8⟩ ⟨1, 2, 3, 4⟩ := by
  refine ⟨fun q r => rfl, ?_, ?_, ?_⟩ <;>
    norm_num [mul, Quaternion.mk.injEq]

/-- C4: for every quaternion with nonzero norm, the inverse is the
conjugate divided componentwise by the squared norm. -/
theorem inverse_eq_conjugate_div_norm_sq (q : Quaternion) (_h : q.norm ≠ 0) :
    q.inverse =
      ⟨q.conjugate.a / q.norm ^ 2, q.conjugate.b / q.norm ^ 2,
       q.conjugate.c / q.norm ^ 2, q.conjugate.d / q.norm ^ 2⟩ := by
  simp [inverse, conjugate, neg_div]

/-- Witness for C4 at the docstring example `Quaternion(4, 4, 4, 4)`,
whose norm is `sqrt 64 = 8`. -/
theorem inverse_eq_conjugate_div_norm_sq_witness :
    norm ⟨4, 4, 4, 4⟩ ≠ 0 ∧
    inverse ⟨4, 4, 4, 4⟩ =
      ⟨(conjugate ⟨4, 4, 4, 4⟩).a / norm ⟨4, 4, 4, 4⟩ ^ 2,
       (conjugate ⟨4, 4, 4, 4⟩).b / norm ⟨4, 4, 4, 4⟩ ^ 2,
       (conjugate ⟨4, 4, 4, 4⟩).c / norm ⟨4, 4, 4, 4⟩ ^ 2,
       (conjugate ⟨4, 4, 4, 4⟩).d / norm ⟨4, 4, 4, 4⟩ ^ 2⟩ := by
  have h : norm ⟨4, 4, 4, 4⟩ ≠ 0 := by
    rw [Ne, norm_eq_zero_iff]
    norm_num
  exact ⟨h, inverse_eq_conjugate_div_norm_sq ⟨4, 4, 4, 4⟩ h⟩

/-- C5: for every quaternion with nonzero norm, multiplying by the
inverse on the right gives the multiplicative identity `(1, 0, 0, 0)`
exactly over the reals. -/
theorem mul_inverse_eq_one (q : Quaternion) (h : q.norm ≠ 0) :
    mul q q.inverse = ⟨1, 0, 0, 0⟩ := by
  have hS : q.a ^ 2 + q.b ^ 2 + q.c ^ 2 + q.d ^ 2 ≠ 0 :=
    fun h0 => h ((norm_eq_zero_iff q).mpr h0)
  rw [inverse_eq_sum]
  simp only [mul, Quaternion.mk.injEq]
  refine ⟨?_, ?_, ?_, ?_⟩ <;> field_simp <;> ring

/-- Witness for C5 at `Quaternion(4, 4, 4, 4)`. -/
theorem mul_inverse_eq_one_witness :
    norm ⟨4, 4, 4, 4⟩ ≠ 0 ∧
    mul ⟨4, 4, 4, 4⟩ (inverse ⟨4, 4, 4, 4⟩) = ⟨1, 0, 0, 0⟩ := by
  have h : norm ⟨4, 4, 4, 4⟩ ≠ 0 := by
    rw [Ne, norm_eq_zero_iff]
    norm_num
  exact ⟨h, mul_inverse_eq_one ⟨4, 4, 4, 4⟩ h⟩

/-- C8: for every quaternion with nonzero norm, `normalize` divides each
component by the norm and the result has norm exactly `1` over the
reals. -/
theorem normalize_unit_norm (q : Quaternion) (h : q.norm ≠ 0) :
    q.normalize = ⟨q.a / q.norm, q.b / q.norm, q.c / q.norm, q.d / q.norm⟩ ∧
    q.normalize.norm = 1 := by
  refine ⟨rfl, ?_⟩
  have hsum : (q.a / q.norm) ^ 2 + (q.b / q.norm) ^ 2 +
      (q.c / q.norm) ^ 2 + (q.d / q.norm) ^ 2 = 1 := by
    have h2 := norm_sq q
    field_simp
    linarith
  show Real.sqrt _ = 1
  rw [show q.normalize.a = q.a / q.norm from rfl,
    show q.normalize.b = q.b / q.norm from rfl,
    show q.normalize.c = q.c / q.norm from rfl,
    show q.normalize.d = q.d / q.norm from rfl, hsum, Real.sqrt_one]

/-- Witness for C8 at the docstring example `Quaternion(1, 1, 1, 1)`,
whose norm is `2`. -/
theorem normalize_unit_norm_witness :
    norm ⟨1, 1, 1, 1⟩ ≠ 0 ∧
    normalize ⟨1, 1, 1, 1⟩ =
      ⟨1 / norm ⟨1, 1, 1, 1⟩, 1 / norm ⟨1, 1, 1, 1⟩,
       1 / norm ⟨1, 1, 1, 1⟩, 1 / norm ⟨1, 1, 1, 1⟩⟩ ∧
    norm (normalize ⟨1, 1, 1, 1⟩) = 1 := by
  have h : norm ⟨1, 1, 1, 1⟩ ≠ 0 := by
    rw [Ne, norm_eq_zero_iff]
    norm_num
  exact ⟨h, (normalize_unit_norm ⟨1, 1, 1, 1⟩ h).1,
    (normalize_unit_norm ⟨1, 1, 1, 1⟩ h).2⟩

/-- C7: `inverse` and `__truediv__` fault exactly on a zero-norm
operand (the divisor, for division): the `ZeroDivisionError` model
returns `none` iff the norm is zero, and on every nonzero-norm operand
it returns the unguarded computation. -/
theorem inverse_div_fault_iff_zero_norm (q r : Quaternion) :
    (inverseOpt q = none ↔ q.norm = 0) ∧
    (divOpt r q = none ↔ q.norm = 0) ∧
    (q.norm ≠ 0 → inverseOpt q = some q.inverse ∧
      divOpt r q = some (div r q)) := by
  have hsq : q.norm ^ 2 = 0 ↔ q.norm = 0 :=
    pow_eq_zero_iff two_ne_zero
  constructor
  · unfold inverseOpt
    by_cases h0 : q.norm ^ 2 = 0
    · simp [h0, hsq.mp h0]
    · simp [h0]
      exact fun hn => h0 (hsq.mpr hn)
  constructor
  · unfold divOpt inverseOpt
    by_cases h0 : q.norm ^ 2 = 0
    · simp [h0, hsq.mp h0]
    · simp [h0]
      exact fun hn => h0 (hsq.mpr hn)
  · intro hn
    have h0 : ¬ q.norm ^ 2 = 0 := fun h => hn (hsq.mp h)
    constructor
    · unfold inverseOpt inverse
      simp [h0]
    · unfold divOpt inverseOpt div inverse
      simp [h0]

/-- Witness for C7: the zero quaternion faults in both operations, a
unit quaternion faults in neither. -/
theorem inverse_div_fault_iff_zero_norm_witness :
    inverseOpt ⟨0, 0, 0, 0⟩ = none ∧
    divOpt ⟨1, 0, 0, 0⟩ ⟨0, 0, 0, 0⟩ = none ∧
    inverseOpt ⟨1, 0, 0, 0⟩ = some (inverse ⟨1, 0, 0, 0⟩) ∧
    divOpt ⟨1, 0, 0, 0⟩ ⟨1, 0, 0, 0⟩ =
      some (div ⟨1, 0, 0, 0⟩ ⟨1, 0, 0, 0⟩) := by
  have hz : norm ⟨0, 0, 0, 0⟩ = 0 := by
    rw [norm_eq_zero_iff]
    norm_num
  have h1 : norm ⟨1, 0, 0, 0⟩ ≠ 0 := by
    rw [Ne, norm_eq_zero_iff]
    norm_num
  refine ⟨?_, ?_, ?_, ?_⟩
  · exact (inverse_div_fault_iff_zero_norm ⟨0, 0, 0, 0⟩ ⟨1, 0, 0, 0⟩).1.mpr hz
  · exact (inverse_div_fault_iff_zero_norm ⟨0, 0, 0, 0⟩ ⟨1, 0, 0, 0⟩).2.1.mpr hz
  · exact ((inverse_div_fault_iff_zero_norm ⟨1, 0, 0, 0⟩ ⟨1, 0, 0, 0⟩).2.2 h1).1
  · exact ((inverse_div_fault_iff_zero_norm ⟨1, 0, 0, 0⟩ ⟨1, 0, 0, 0⟩).2.2 h1).2

/-- C3: `rotate_vector` lifts the 3-vector to a pure quaternion,
conjugates by `self`, and returns the vector part; at
`Quaternion(1, 2, 3, 4)` on `(1, 1, 1)` the result matches the expected
floats `(0.19999999999999996, 1.0, 1.4)` within `1e-9`. -/
theorem rotate_vector_spec :
    (∀ (q : Quaternion) (v : ℝ × ℝ × ℝ),
      rotate_vector q v =
        (mul (mul q ⟨0, v.1, v.2.1, v.2.2⟩) q.inverse).vector) ∧
    |(rotate_vector ⟨1, 2, 3, 4⟩ (1, 1, 1)).1 - 0.19999999999999996| < 1e-9 ∧
    |(rotate_vector ⟨1, 2, 3, 4⟩ (1, 1, 1)).2.1 - 1.0| < 1e-9 ∧
    |(rotate_vector ⟨1, 2, 3, 4⟩ (1, 1, 1)).2.2 - 1.4| < 1e-9 := by
  have hr : rotate_vector ⟨1, 2, 3, 4⟩ (1, 1, 1) = (1 / 5, 1, 7 / 5) := by
    rw [rotate_vector, inverse_eq_sum]
    norm_num [mul, vector]
  refine ⟨fun q v => rfl, ?_, ?_, ?_⟩ <;>
    rw [hr] <;> rw [abs_lt] <;> norm_num

/-- When the scalar part lies in `[-1, 1]`, neither library call in
`to_axis_angle` raises, and the result is the two-branch conditional
of the source body. -/
theorem to_axis_angleOpt_of_dom (q : Quaternion)
    (h1 : -1 ≤ q.a) (h2 : q.a ≤ 1) :
    to_axis_angleOpt q =
      if Real.sqrt (1 - q.a * q.a) < 1e-10 then some ((1, 0, 0), 0)
      else
        some ((q.b / Real.sqrt (1 - q.a * q.a),
               q.c / Real.sqrt (1 - q.a * q.a),
               q.d / Real.sqrt (1 - q.a * q.a)), 2 * Real.arccos q.a) := by
  have hd : (0 : ℝ) ≤ 1 - q.a * q.a := by nlinarith
  unfold to_axis_angleOpt acosOpt sqrtOpt
  rw [if_pos ⟨h1, h2⟩, if_pos hd]

/-- C2: `to_axis_angle` has exactly the two branches keyed on
`s = sqrt(1 - a²)`: whenever the code's `s` is defined and below
`1e-10` the fixed pair `((1,0,0), 0)` comes back with no fault, and
whenever `s ≥ 1e-10` the pair `((b/s, c/s, d/s), 2*acos(a))` comes
back. -/
theorem to_axis_angle_branches (q : Quaternion)
    (h1 : -1 ≤ q.a) (h2 : q.a ≤ 1) :
    (Real.sqrt (1 - q.a * q.a) < 1e-10 →
      to_axis_angleOpt q = some ((1, 0, 0), 0)) ∧
    (1e-10 ≤ Real.sqrt (1 - q.a * q.a) →
      to_axis_angleOpt q =
        some ((q.b / Real.sqrt (1 - q.a * q.a),
               q.c / Real.sqrt (1 - q.a * q.a),
               q.d / Real.sqrt (1 - q.a * q.a)), 2 * Real.arccos q.a)) := by
  rw [to_axis_angleOpt_of_dom q h1 h2]
  constructor
  · intro hs
    rw [if_pos hs]
  · intro hs
    rw [if_neg (not_lt.mpr hs)]

/-- Witness for C2: the identity quaternion `(1, 0, 0, 0)` has
`s = sqrt 0 = 0 < 1e-10` and lands in the degenerate branch without
fault. -/
theorem to_axis_angle_branches_witness :
    to_axis_angleOpt ⟨1, 0, 0, 0⟩ = some ((1, 0, 0), 0) := by
  have hs : Real.sqrt (1 - (1 : ℝ) * 1) < 1e-10 := by
    rw [show (1 : ℝ) - 1 * 1 = 0 by norm_num, Real.sqrt_zero]
    norm_num
  exact (to_axis_angle_branches ⟨1, 0, 0, 0⟩ (by norm_num) le_rfl).1 hs

/-- C10: for every quaternion with `|a| > 1`, the `acos(a)` call at the
top of `to_axis_angle` raises a math domain error before the degenerate
check is reached, so no axis-angle pair is returned. -/
theorem to_axis_angle_domain_fault (q : Quaternion) (h : 1 < |q.a|) :
    to_axis_angleOpt q = none := by
  have hacos : acosOpt q.a = none := by
    unfold acosOpt
    rw [if_neg]
    intro hc
    have : |q.a| ≤ 1 := abs_le.mpr hc
    linarith
  unfold to_axis_angleOpt
  rw [hacos]

/-- Witness for C10 at `Quaternion(2, 0, 0, 0)`. -/
theorem to_axis_angle_domain_fault_witness :
    to_axis_angleOpt ⟨2, 0, 0, 0⟩ = none := by
  have h : (1 : ℝ) < |(2 : ℝ)| := by
    rw [abs_of_pos (by norm_num : (0 : ℝ) < 2)]
    norm_num
  exact to_axis_angle_domain_fault ⟨2, 0, 0, 0⟩ h

/-- C6: `from_axis_angle((0,1,0), π/2)` yields
`(cos(π/4), 0, sin(π/4), 0) ≈ (0.70710678, 0, 0.70710678, 0)`, and
feeding that quaternion back through `to_axis_angle` recovers the axis
`(0, 1, 0)` and the angle `π/2` with no fault. -/
theorem axis_angle_round_trip :
    from_axis_angle (0, 1, 0) (Real.pi / 2) =
      ⟨Real.cos (Real.pi / 4), 0, Real.sin (Real.pi / 4), 0⟩ ∧
    Real.cos (Real.pi / 4) = Real.sqrt 2 / 2 ∧
    |Real.cos (Real.pi / 4) - 0.70710678| < 1e-7 ∧
    to_axis_angleOpt (from_axis_angle (0, 1, 0) (Real.pi / 2)) =
      some ((0, 1, 0), Real.pi / 2) := by
  have hmul2 : Real.sqrt 2 * Real.sqrt 2 = 2 :=
    Real.mul_self_sqrt (by norm_num)
  have hs2lo : (1.41421354 : ℝ) < Real.sqrt 2 := by
    nlinarith [Real.sqrt_nonneg 2]
  have hs2hi : Real.sqrt 2 < 1.41421358 := by
    nlinarith [Real.sqrt_nonneg 2]
  have h1 : from_axis_angle (0, 1, 0) (Real.pi / 2) =
      ⟨Real.cos (Real.pi / 4), 0, Real.sin (Real.pi / 4), 0⟩ := by
    unfold from_axis_angle
    rw [show Real.pi / 2 / 2 = Real.pi / 4 by ring]
    norm_num
  have hQ : from_axis_angle (0, 1, 0) (Real.pi / 2) =
      ⟨Real.sqrt 2 / 2, 0, Real.sqrt 2 / 2, 0⟩ := by
    rw [h1, Real.cos_pi_div_four, Real.sin_pi_div_four]
  have haa : (1 : ℝ) - Real.sqrt 2 / 2 * (Real.sqrt 2 / 2) = 1 / 2 := by
    nlinarith
  have hhalf : Real.sqrt ((1 : ℝ) / 2) = Real.sqrt 2 / 2 := by
    rw [show (1 / 2 : ℝ) = (Real.sqrt 2 / 2) ^ 2 by
      rw [div_pow, Real.sq_sqrt (by norm_num : (0 : ℝ) ≤ 2)]; norm_num]
    exact Real.sqrt_sq (by positivity)
  have hspos : (0 : ℝ) < Real.sqrt 2 / 2 := by positivity
  have harc : Real.arccos (Real.sqrt 2 / 2) = Real.pi / 4 := by
    rw [← Real.cos_pi_div_four]
    exact Real.arccos_cos (by positivity) (by linarith [Real.pi_pos])
  refine ⟨h1, Real.cos_pi_div_four, ?_, ?_⟩
  · rw [Real.cos_pi_div_four, abs_lt]
    constructor <;> nlinarith
  · have ha1 : (-1 : ℝ) ≤ Real.sqrt 2 / 2 := by linarith [Real.sqrt_nonneg 2]
    have ha2 : Real.sqrt 2 / 2 ≤ (1 : ℝ) := by linarith
    have hstep : to_axis_angleOpt ⟨Real.sqrt 2 / 2, 0, Real.sqrt 2 / 2, 0⟩ =
        if Real.sqrt (1 - Real.sqrt 2 / 2 * (Real.sqrt 2 / 2)) < 1e-10 then
          some ((1, 0, 0), 0)
        else
          some ((0 / Real.sqrt (1 - Real.sqrt 2 / 2 * (Real.sqrt 2 / 2)),
                 Real.sqrt 2 / 2 /
                   Real.sqrt (1 - Real.sqrt 2 / 2 * (Real.sqrt 2 / 2)),
                 0 / Real.sqrt (1 - Real.sqrt 2 / 2 * (Real.sqrt 2 / 2))),
                2 * Real.arccos (Real.sqrt 2 / 2)) :=
      to_axis_angleOpt_of_dom ⟨Real.sqrt 2 / 2, 0, Real.sqrt 2 / 2, 0⟩ ha1 ha2
    have hten : (1e-10 : ℝ) ≤ 1 / 2 := by norm_num
    rw [hQ, hstep, haa, hhalf]
    rw [if_neg (not_lt.mpr (by linarith))]
    rw [zero_div, div_self (ne_of_gt hspos), harc]
    simp only [Option.some.injEq, Prod.mk.injEq]
    exact ⟨trivial, by ring⟩
theorem conjugate_involution (q : Quaternion) :
    q.conjugate = ⟨q.a, -q.b, -q.c, -q.d⟩ ∧
    q.conjugate.conjugate = q := by
  refine ⟨rfl, ?_⟩
  simp [conjugate]

end Quaternion

end Quternion
